import Mathlib

/-!
Verification development for the pdf-rag-mcp-server repository.

Shallow embedding of:
  * `backend/app/archive_utils.py` (filename sanitization and structured
    archive names), modelled over `List Char` so that Python string
    operations (`str.replace`, `re.sub`, `str.strip`, slicing) become
    explicit list functions;
  * `backend/app/vector_backends/lance_backend.py` (record building,
    filtered nearest-neighbour search with pagination, metadata
    synchronization, delete, and the markdown rebuild reconciler).

Python floats are modelled as rationals (`ℚ`); Python `int` as `ℤ`;
fallible operations return the same sentinel values the source returns.
-/

/-- The nine characters Python's `sanitize_filename` replaces
(`unsafe_chars = r'<>:"/\|?*'`). -/
def unsafeChar (c : Char) : Bool :=
  c == '<' || c == '>' || c == ':' || c == '"' || c == '/' ||
  c == '\\' || c == '|' || c == '?' || c == '*'

/-- One pass of the `for char in unsafe_chars: result = result.replace(char, "_")`
loop: since the replacement `'_'` is itself never unsafe, the nine sequential
`str.replace` calls equal one character-wise map. -/
def replaceUnsafe (c : Char) : Char :=
  if unsafeChar c then '_' else c

/-- Characters matched by Python's `\s` (the ASCII whitespace class:
space, tab, newline, carriage return, vertical tab, form feed). -/
def pySpace (c : Char) : Bool :=
  c == ' ' || c == '\t' || c == '\n' || c == '\r' ||
  c == Char.ofNat 11 || c == Char.ofNat 12

/-- `re.sub(p+, '_', s)` for a character class `p`: every maximal run of
characters satisfying `p` is replaced by a single underscore.  The boolean
argument records whether the previous character was inside such a run. -/
def collapseAux (p : Char → Bool) : Bool → List Char → List Char
  | _, [] => []
  | inRun, c :: cs =>
    if p c then
      if inRun then collapseAux p true cs
      else '_' :: collapseAux p true cs
    else c :: collapseAux p false cs

/-- `s.lstrip('_')`. -/
def lstripU (l : List Char) : List Char :=
  l.dropWhile (fun c => c == '_')

/-- `s.rstrip('_')`. -/
def rstripU (l : List Char) : List Char :=
  (l.reverse.dropWhile (fun c => c == '_')).reverse

/-- `archive_utils.sanitize_filename`: replace unsafe characters by `_`,
collapse whitespace runs to `_`, collapse underscore runs, strip
underscores at both ends, and truncate to 150 characters (re-stripping
trailing underscores after the cut). -/
def sanitize_filename (s : List Char) : List Char :=
  if s = [] then []
  else
    let r1 := s.map replaceUnsafe
    let r2 := collapseAux pySpace false r1
    let r3 := collapseAux (fun c => c == '_') false r2
    let r4 := rstripU (lstripU r3)
    if 150 < r4.length then rstripU (r4.take 150) else r4

/-- Python `str.strip()` (no argument): strip `\s` characters at both ends. -/
def pyStripL (l : List Char) : List Char :=
  ((l.dropWhile pySpace).reverse.dropWhile pySpace).reverse

/-- Python `str.split()` (no argument): split at whitespace and drop the
empty segments, leaving the maximal non-whitespace words. -/
def pyWords (l : List Char) : List (List Char) :=
  (l.splitOnP pySpace).filter (fun w => w ≠ [])

/-- Decimal digits, most significant first, by structural recursion on a
fuel bound (the fuel `n + 1` always suffices since a number has at most
`n + 1` digits). -/
def natCharsAux : Nat → Nat → List Char
  | 0, _ => []
  | fuel + 1, n =>
    if n < 10 then [Char.ofNat (48 + n)]
    else natCharsAux fuel (n / 10) ++ [Char.ofNat (48 + n % 10)]

/-- Decimal digits of a natural number, most significant first
(Python `str(n)` for `n ≥ 0`). -/
def natChars (n : Nat) : List Char := natCharsAux (n + 1) n

/-- Python `str(i)` for an `int`. -/
def intChars (i : Int) : List Char :=
  if i < 0 then '-' :: natChars (-i).toNat else natChars i.toNat

/-- Last-name extraction inside `build_structured_archive_filename`:
strip the author, take the segment before the first comma (stripped) when a
comma is present, otherwise the last whitespace-separated word. -/
def lastNameOf (author : List Char) : List Char :=
  let ac := pyStripL author
  if (',' ∈ ac) then pyStripL (ac.takeWhile (fun c => !(c == ',')))
  else ((pyWords ac).getLastD [])

/-- The author contribution to `parts`: present when the author string is
truthy and its extracted last name is truthy, and then sanitized. -/
def slotAuthor : Option (List Char) → List (List Char)
  | some a =>
    if a ≠ [] then
      if lastNameOf a ≠ [] then [sanitize_filename (lastNameOf a)] else []
    else []
  | none => []

/-- The year contribution to `parts`: present when the year is truthy
(Python `if year:` treats `0` as falsy), rendered with `str`. -/
def slotYear : Option Int → List (List Char)
  | some y => if y ≠ 0 then [intChars y] else []
  | none => []

/-- The title contribution to `parts`: present when the title is truthy,
and then sanitized. -/
def slotTitle : Option (List Char) → List (List Char)
  | some t => if t ≠ [] then [sanitize_filename t] else []
  | none => []

/-- The list `parts` assembled by `build_structured_archive_filename`. -/
def archiveParts (first_author : Option (List Char)) (year : Option Int)
    (title : Option (List Char)) : List (List Char) :=
  slotAuthor first_author ++ slotYear year ++ slotTitle title

/-- Python `"_".join(parts)`. -/
def joinUnderscore : List (List Char) → List Char
  | [] => []
  | [p] => p
  | p :: ps => p ++ '_' :: joinUnderscore ps

/-- `archive_utils.build_structured_archive_filename`: join the parts with
underscores and append `.pdf`; with no parts, return the fallback filename
unchanged. -/
def build_structured_archive_filename (first_author : Option (List Char))
    (year : Option Int) (title : Option (List Char))
    (fallback_filename : List Char) : List Char :=
  let parts := archiveParts first_author year title
  if parts ≠ [] then joinUnderscore parts ++ ['.', 'p', 'd', 'f']
  else fallback_filename

/-- The characters of a filename before its extension (the part before the
last dot; the whole name when no dot occurs). -/
def stemOf (l : List Char) : List Char :=
  match l.reverse.dropWhile (fun c => !(c == '.')) with
  | [] => l
  | _ :: rest => rest.reverse

/-! ## LanceDB backend: records and metadata -/

/-- The caller-supplied metadata dictionary consumed by `_build_records` and
produced by `rebuild_from_markdown`; absent keys are `none`.  The dictionary
is also what the opaque JSON `metadata` column stores (`json.dumps(meta)`);
serialization is modelled as the identity on this structure, which is
faithful because `json.dumps`/`json.loads` round-trip it. -/
structure Meta where
  pdf_id : Option Int := none
  source : Option String := none
  chunk_id : Option String := none
  page : Option Int := none
  batch : Option String := none
  index : Option Int := none
  length : Option Int := none
  timestamp : Option ℚ := none
  publication_year : Option Int := none
  authors : Option (List String) := none
  document_type : Option String := none
deriving DecidableEq, Repr

/-- One typed row of the `pdf_documents` Lance table (`_TABLE_SCHEMA`). -/
structure ChunkRecord where
  id : String
  text : String
  vector : List ℚ
  pdf_id : Int
  source : String
  chunk_id : String
  page : Int
  batch : String
  index : Int
  length : Int
  timestamp : ℚ
  metadata : Meta
  publication_year : Int
  authors : List String
  document_type : String
deriving DecidableEq, Repr

/-- Python `f"doc_{meta.get('pdf_id')}_{meta.get('chunk_id')}"`: a missing
key interpolates as the string `None`. -/
def pyReprOptInt (o : Option Int) : String :=
  match o with
  | none => "None"
  | some v => toString v

/-- Python `f"...{meta.get('chunk_id')}"` for an optional string. -/
def pyReprOptStr (o : Option String) : String :=
  match o with
  | none => "None"
  | some v => v

/-- `int(x or 0)` on an optional int: `None` (and `0`) coerce to `0`. -/
def pyOrInt (o : Option Int) : Int := o.getD 0

/-- `str(x or "")` on an optional string. -/
def pyOrStr (o : Option String) : String := o.getD ""

/-- `float(x or 0.0)` on an optional float. -/
def pyOrRat (o : Option ℚ) : ℚ := o.getD 0

/-- `int(publication_year) if publication_year else 0`: `None` and the falsy
`0` both yield the sentinel `0`. -/
def sentinelYear (o : Option Int) : Int := o.getD 0

/-- `list(authors) if authors else []`: `None` and an empty list both yield
the sentinel `[]`. -/
def sentinelAuthors (o : Option (List String)) : List String := o.getD []

/-- `str(document_type) if document_type else ""`. -/
def sentinelType (o : Option String) : String := o.getD ""

/-- One record built by `LanceVectorBackend._build_records` from a chunk
text, its embedding and its metadata dictionary. -/
def buildRecord (chunk : String) (embedding : List ℚ) (meta : Meta) :
    ChunkRecord where
  id := "doc_" ++ pyReprOptInt meta.pdf_id ++ "_" ++ pyReprOptStr meta.chunk_id
  text := chunk
  vector := embedding
  pdf_id := pyOrInt meta.pdf_id
  source := pyOrStr meta.source
  chunk_id := pyOrStr meta.chunk_id
  page := pyOrInt meta.page
  batch := pyOrStr meta.batch
  index := pyOrInt meta.index
  length := pyOrInt meta.length
  timestamp := pyOrRat meta.timestamp
  metadata := meta
  publication_year := sentinelYear meta.publication_year
  authors := sentinelAuthors meta.authors
  document_type := sentinelType meta.document_type

/-- `_build_records` over parallel lists (`zip` truncates to the shortest,
as in Python). -/
def build_records (chunks : List String) (embeddings : List (List ℚ))
    (metadatas : List Meta) : List ChunkRecord :=
  ((chunks.zip embeddings).zip metadatas).map
    (fun ce => buildRecord ce.1.1 ce.1.2 ce.2)

/-- Row reconstruction inside `update_document_metadata`: every column is
copied through its coercion (`str(...)`, `int(...)`, identities on the
already-typed row values), the JSON `metadata` blob is kept verbatim, and
only the three document-metadata columns are overwritten — `None`
parameters become the sentinels `0`, `[]`, `""` (the source tests
`is not None`, so an explicit `0`/`[]`/`""` argument is stored as given,
which coincides with `Option.getD`). -/
def rebuildRow (r : ChunkRecord) (publication_year : Option Int)
    (authors : Option (List String)) (document_type : Option String) :
    ChunkRecord where
  id := r.id
  text := r.text
  vector := r.vector
  pdf_id := r.pdf_id
  source := r.source
  chunk_id := r.chunk_id
  page := r.page
  batch := r.batch
  index := r.index
  length := r.length
  timestamp := r.timestamp
  metadata := r.metadata
  publication_year := publication_year.getD 0
  authors := authors.getD []
  document_type := document_type.getD ""

/-- `LanceVectorBackend.update_document_metadata`: with no table, report
failure; otherwise fetch the chunk rows matching `pdf_id` — the read-back
is capped by `limit(100000)`, so at most the first 100000 matching rows
are materialized; with an empty fetch, succeed as a no-op; otherwise
reconstruct each fetched row with the new metadata columns, delete all
rows matching `pdf_id == {pdf_id}` (the delete is not capped), and re-add
the reconstructed rows.  Returns the success flag and the resulting table
contents. -/
def update_document_metadata (tableExists : Bool) (table : List ChunkRecord)
    (pdf_id : Int) (publication_year : Option Int)
    (authors : Option (List String)) (document_type : Option String) :
    Bool × List ChunkRecord :=
  if tableExists = false then (false, table)
  else
    let df := (table.filter (fun r => r.pdf_id == pdf_id)).take 100000
    if df.isEmpty then (true, table)
    else
      let updated :=
        df.map (fun r => rebuildRow r publication_year authors document_type)
      let afterDelete := table.filter (fun r => !(r.pdf_id == pdf_id))
      (true, afterDelete ++ updated)

/-! ## LanceDB backend: search -/

/-- One row as returned by the nearest-neighbour query
(`query.limit(fetch_total).to_pandas()`): its text, its parsed metadata
dictionary (the malformed-JSON fallback of lines 225-234 degrades a row to
an empty dictionary before windowing and is orthogonal to the pagination
and score computations modelled here), and the values of the backend's
`score` and `distance` columns.  Whether those two columns are present at
all is a per-query property of the backing dataframe, passed separately. -/
structure QRow where
  text : String
  meta : Meta
  scoreVal : ℚ
  distVal : ℚ
deriving DecidableEq, Repr

/-- `max(0.0, min(1.0, x))`. -/
def clamp01 (x : ℚ) : ℚ := max 0 (min 1 x)

/-- The `scores_all` list of `search`: clamp the native score column when
present, else derive `clamp(1 - distance, 0, 1)` from the distance column,
else zero. -/
def scoresAllOf (hasScore hasDist : Bool) (fetched : List QRow) : List ℚ :=
  if hasScore then fetched.map (fun r => clamp01 r.scoreVal)
  else if hasDist then fetched.map (fun r => clamp01 (1 - r.distVal))
  else fetched.map (fun _ => 0)

/-- The `distances_all` list of `search`: clamp the native distance column
below by zero when present, else derive `max(0, 1 - score)` from the
already-computed scores. -/
def distancesAllOf (hasScore hasDist : Bool) (fetched : List QRow) : List ℚ :=
  if hasDist then fetched.map (fun r => max 0 r.distVal)
  else (scoresAllOf hasScore hasDist fetched).map (fun s => max 0 (1 - s))

/-- The value returned by `search`: either the canonical empty shape
`{"documents": [[]], "metadatas": [[]], "distances": [[]]}` (which carries
no `has_more`/pagination keys — callers reading `has_more` from it get the
falsy default), or the full result dictionary. -/
inductive SearchResult where
  | empty
  | results (documents : List String) (metadatas : List Meta)
      (distances : List ℚ) (scores : List ℚ) (has_more : Bool)
      (offset : Nat) (limit : Nat) (total_fetched : Nat)
deriving DecidableEq, Repr

/-- The `documents` window of a search result (empty shape: `[[]]`). -/
def SearchResult.documents : SearchResult → List String
  | .empty => []
  | .results d _ _ _ _ _ _ _ => d

/-- The `metadatas` window of a search result. -/
def SearchResult.metadatas : SearchResult → List Meta
  | .empty => []
  | .results _ m _ _ _ _ _ _ => m

/-- The `distances` window of a search result. -/
def SearchResult.distances : SearchResult → List ℚ
  | .empty => []
  | .results _ _ d _ _ _ _ _ => d

/-- The `scores` window of a search result (absent key reads as empty). -/
def SearchResult.scores : SearchResult → List ℚ
  | .empty => []
  | .results _ _ _ s _ _ _ _ => s

/-- The `has_more` flag (absent on the canonical empty shape, which callers
read as the falsy default `false`). -/
def SearchResult.hasMore : SearchResult → Bool
  | .empty => false
  | .results _ _ _ _ h _ _ _ => h

/-- `LanceVectorBackend.search`.  `tableExists` is whether `self.table`
(after the re-open attempt) is non-`None`; `rowCount` is
`get_document_count()`; `matched` is the full distance-ordered list of rows
matching the query that the index would stream, of which
`query.limit(fetch_total)` materializes the first `fetch_total`;
`hasScore`/`hasDist` tell whether the dataframe carries the respective
column.  `n_results` and `offset` are the raw caller integers;
`Int.toNat` is `max(int(x or 0), 0)`. -/
def lanceSearch (tableExists : Bool) (rowCount : Nat)
    (hasScore hasDist : Bool) (matched : List QRow)
    (n_results offset : Int) : SearchResult :=
  if tableExists = false then .empty
  else if rowCount = 0 then .empty
  else
    let requested : Nat := n_results.toNat
    let offsetVal : Nat := offset.toNat
    let fetchTotal0 : Nat := requested + offsetVal + 1
    -- `if fetch_total <= 0: fetch_total = 1` (dead after the clamps above)
    let fetchTotal : Nat := if fetchTotal0 = 0 then 1 else fetchTotal0
    let fetched := matched.take fetchTotal
    if fetched.isEmpty then .empty
    else
      let documents := fetched.map (fun r => r.text)
      let metadatas := fetched.map (fun r => r.meta)
      let scoresAll := scoresAllOf hasScore hasDist fetched
      let distancesAll := distancesAllOf hasScore hasDist fetched
      let windowDocs :=
        if 0 < requested then (documents.drop offsetVal).take requested else []
      let windowMeta :=
        if 0 < requested then (metadatas.drop offsetVal).take requested else []
      let windowDist :=
        if 0 < requested then (distancesAll.drop offsetVal).take requested else []
      let windowScores :=
        if 0 < requested then (scoresAll.drop offsetVal).take requested else []
      let hasMore := decide (offsetVal + requested < documents.length)
      .results windowDocs windowMeta windowDist windowScores hasMore
        offsetVal requested documents.length

/-! ## LanceDB backend: delete and filter translation -/

/-- A Python scalar admissible as an equality-filter value. -/
inductive PyScalar where
  | str (s : String)
  | int (i : Int)
  | bool (b : Bool)
deriving DecidableEq, Repr

/-- A single-quote character as a string. -/
def squote : String := String.singleton (Char.ofNat 39)

/-- `value.replace("'", "''")`. -/
def escapeQuotes (s : String) : String := s.replace squote (squote ++ squote)

/-- The SQL literal `_delete_where_expr` emits for one value: strings are
quote-escaped and enclosed in single quotes; other scalars are interpolated
bare with Python `str` (so `True`/`False` for booleans). -/
def scalarSql : PyScalar → String
  | .str s => squote ++ escapeQuotes s ++ squote
  | .int i => toString i
  | .bool b => if b then "True" else "False"

/-- `LanceVectorBackend._delete_where_expr`: `None` for a falsy filter,
otherwise the `" and "`-joined conjunction of `key == literal` clauses. -/
def delete_where_expr (filter : List (String × PyScalar)) : Option String :=
  if filter = [] then none
  else some (String.intercalate " and "
    (filter.map (fun kv => kv.1 ++ " == " ++ scalarSql kv.2)))

/-- The predicate argument a query builder's `where` receives: the
underlying index accepts only an SQL expression string; a raw Python
mapping passed through is recorded as `rawMapping`. -/
inductive WhereArg where
  | sqlExpr (s : String)
  | rawMapping (m : List (String × PyScalar))
deriving DecidableEq, Repr

/-- What `search` hands to `query.where` (lines 214-215): the raw
`filter_criteria` mapping itself whenever it is truthy — no translation to
an SQL string happens on the search path. -/
def searchWhereArg (filter : Option (List (String × PyScalar))) :
    Option WhereArg :=
  match filter with
  | some m => if m ≠ [] then some (.rawMapping m) else none
  | none => none

/-- What `delete` hands to `self.table.delete(where=...)` for a truthy
filter: the translated SQL conjunction. -/
def deleteWhereArg (filter : List (String × PyScalar)) : Option WhereArg :=
  (delete_where_expr filter).map .sqlExpr

/-- The return value of `LanceVectorBackend.delete`: with no table it
returns `True` immediately; a truthy filter or a truthy id iterable deletes
and returns `True`; with neither it logs a warning and returns `False`. -/
def lanceDelete (tableExists : Bool)
    (filter : Option (List (String × PyScalar)))
    (ids : Option (List String)) : Bool :=
  if tableExists = false then true
  else if (match filter with | some m => !m.isEmpty | none => false) then true
  else if (match ids with | some l => !l.isEmpty | none => false) then true
  else false

/-! ## LanceDB backend: rebuild reconciler -/

/-- A `PDFMarkdownPage` row as the rebuild query returns it (already
filtered to the document and ordered by page number). -/
structure MdPage where
  page : Int
  markdown : String
deriving DecidableEq, Repr

/-- A `PDFDocument` row as selected by the rebuild query (already filtered
to `processed == True` and ordered by id), together with its markdown
pages.  `mdCurrent` models `markdown_is_current(doc)` — the staleness
check lives in `vector_backends/base.py`, outside the embedded backend, so
it enters as an opaque per-document flag. -/
structure RDoc where
  id : Int
  filename : String
  blacklisted : Bool
  mdCurrent : Bool
  publication_year : Option Int := none
  authors : Option (List String) := none
  document_type : Option String := none
  pages : List MdPage := []
deriving DecidableEq, Repr

/-- Python `str.strip()` on a `String`. -/
def pyStripS (s : String) : String := (pyStripL s.toList).asString

/-- The per-page chunking loop of `rebuild_from_markdown`: strip each
page's markdown, skip whitespace-only pages, split the survivors with the
text splitter (an external langchain collaborator, passed as `split`), and
tag every chunk with its page number. -/
def docChunksWithPages (split : String → List String) (d : RDoc) :
    List (String × Int) :=
  d.pages.bind (fun p =>
    let t := pyStripS p.markdown
    if t = "" then [] else (split t).map (fun c => (c, p.page)))

/-- The metadata dictionaries `rebuild_from_markdown` builds for one
document under one batch id: `chunk_counter` is the zero-based position in
the document's chunk list, `chunk_id` is `f"{batch_id}_{chunk_counter}"`,
and the document's metadata fields are attached with sentinel coercions
(`doc.publication_year or 0`, `doc.authors or []`,
`doc.document_type or ""`).  `now` models `time.time()`. -/
def docMetas (split : String → List String) (d : RDoc) (batch : String)
    (now : ℚ) : List Meta :=
  (docChunksWithPages split d).enum.map (fun ic =>
    { source := some d.filename
      chunk_id := some (batch ++ "_" ++ toString ic.1)
      pdf_id := some d.id
      page := some ic.2.2
      batch := some batch
      index := some (Int.ofNat ic.1)
      length := some (Int.ofNat ic.2.1.length)
      timestamp := some now
      publication_year := some (d.publication_year.getD 0)
      authors := some (d.authors.getD [])
      document_type := some (d.document_type.getD "") })

/-- The document scan of `rebuild_from_markdown`, returning the metadata
rows of every inserted chunk in insertion order.  Blacklisted documents,
documents with stale markdown and documents without pages are skipped
before a batch id is drawn; each surviving document draws the next value of
the id generator `gen` (modelling `uuid.uuid4().hex[:8]`, one fresh draw
per document) and gets the batch id `f"rebuild-{...}"`. -/
def rebuildScan (split : String → List String) (gen : Nat → String)
    (now : ℚ) : Nat → List RDoc → List Meta
  | _, [] => []
  | k, d :: ds =>
    if d.blacklisted then rebuildScan split gen now k ds
    else if d.mdCurrent = false then rebuildScan split gen now k ds
    else if d.pages.isEmpty then rebuildScan split gen now k ds
    else
      let batch := "rebuild-" ++ gen k
      docMetas split d batch now ++ rebuildScan split gen now (k + 1) ds

/-- `LanceVectorBackend.rebuild_from_markdown`, abstracted to the metadata
rows it inserts: a populated table (`get_document_count() > 0`) makes the
whole run a no-op. -/
def rebuild_from_markdown (rowCount : Nat) (split : String → List String)
    (gen : Nat → String) (now : ℚ) (docs : List RDoc) : List Meta :=
  if 0 < rowCount then [] else rebuildScan split gen now 0 docs

/-! ## Specification predicates -/

/-- No two adjacent underscores: every whitespace/underscore run has been
collapsed to a single `_`. -/
def RunFreeU (l : List Char) : Prop :=
  List.Chain' (fun a b => ¬(a = '_' ∧ b = '_')) l

/-- No whitespace and none of the nine unsafe filename characters. -/
def NoBadChars (l : List Char) : Prop :=
  ∀ c ∈ l, pySpace c = false ∧ unsafeChar c = false

/-- The full normal form `sanitize_filename` establishes: clean character
set, collapsed underscore runs, no underscore at either end, at most 150
characters. -/
def SaneName (l : List Char) : Prop :=
  NoBadChars l ∧ RunFreeU l ∧ (∀ h ∈ l.head?, h ≠ '_') ∧
  (∀ h ∈ l.getLast?, h ≠ '_') ∧ l.length ≤ 150

/-- A join component that cannot create an underscore run at a junction:
internally collapsed and underscore-free at both ends. -/
def GoodSeg (l : List Char) : Prop :=
  RunFreeU l ∧ (∀ h ∈ l.head?, h ≠ '_') ∧ (∀ h ∈ l.getLast?, h ≠ '_')

/-- Claim C9 as stated, as a predicate of one derived filename: no unsafe
character, no residual whitespace, collapsed underscore runs, and at most
150 characters before the extension. -/
def filenameClaimC9 (name : List Char) : Prop :=
  (∀ c ∈ name, unsafeChar c = false) ∧ (∀ c ∈ name, pySpace c = false) ∧
  RunFreeU name ∧ (stemOf name).length ≤ 150

/-- The part of C9 the structured-name path does establish: clean character
set and collapsed underscore runs over the whole filename. -/
def structuredNameOk (name : List Char) : Prop :=
  (∀ c ∈ name, unsafeChar c = false ∧ pySpace c = false) ∧ RunFreeU name

/-- A join component that cannot create an underscore run or introduce a
bad character anywhere: clean character set, internally collapsed, and
underscore-free at both ends. -/
def PartOk (p : List Char) : Prop :=
  (∀ c ∈ p, unsafeChar c = false ∧ pySpace c = false) ∧ RunFreeU p ∧
  (∀ h ∈ p.head?, h ≠ '_') ∧ (∀ h ∈ p.getLast?, h ≠ '_')

/-- A chunk row whose three structured metadata columns agree with the
corresponding keys of its opaque JSON metadata blob (up to the sentinel
coercions applied at insert time). -/
def consistentRow (r : ChunkRecord) : Prop :=
  r.publication_year = sentinelYear r.metadata.publication_year ∧
  r.authors = sentinelAuthors r.metadata.authors ∧
  r.document_type = sentinelType r.metadata.document_type

instance (r : ChunkRecord) : Decidable (consistentRow r) := by
  unfold consistentRow; infer_instance

/-- The blob of every row surviving `update_document_metadata` is the blob
of some pre-update row, verbatim. -/
def updateBlobPreserved (table : List ChunkRecord) (pdf_id : Int)
    (publication_year : Option Int) (authors : Option (List String))
    (document_type : Option String) : Prop :=
  ∀ r2 ∈ (update_document_metadata true table pdf_id publication_year
      authors document_type).2,
    ∃ r ∈ table, r2.metadata = r.metadata

/-- Equality of every `ChunkRecord` column except the three document
metadata columns. -/
def sameFrame (r r2 : ChunkRecord) : Prop :=
  r2.id = r.id ∧ r2.text = r.text ∧ r2.vector = r.vector ∧
  r2.pdf_id = r.pdf_id ∧ r2.source = r.source ∧ r2.chunk_id = r.chunk_id ∧
  r2.page = r.page ∧ r2.batch = r.batch ∧ r2.index = r.index ∧
  r2.length = r.length ∧ r2.timestamp = r.timestamp ∧
  r2.metadata = r.metadata

/-- Claim C6 as a predicate of one `update_document_metadata` call on an
initialized table: success; no-op on zero matching rows; non-matching rows
survive; each matching row survives as its reconstruction; every surviving
row matching `pdf_id` carries the new (sentinel-coerced) metadata values;
and every surviving row preserves all other columns of some input row
verbatim. -/
def updateSpecHolds (table : List ChunkRecord) (pdf_id : Int)
    (publication_year : Option Int) (authors : Option (List String))
    (document_type : Option String) : Prop :=
  let res := update_document_metadata true table pdf_id publication_year
    authors document_type
  res.1 = true ∧
  ((∀ r ∈ table, r.pdf_id ≠ pdf_id) → res.2 = table) ∧
  (∀ r ∈ table, r.pdf_id ≠ pdf_id → r ∈ res.2) ∧
  (∀ r ∈ table, r.pdf_id = pdf_id →
    rebuildRow r publication_year authors document_type ∈ res.2) ∧
  (∀ r2 ∈ res.2, r2.pdf_id = pdf_id →
    r2.publication_year = publication_year.getD 0 ∧
    r2.authors = authors.getD [] ∧
    r2.document_type = document_type.getD "") ∧
  (∀ r2 ∈ res.2, ∃ r ∈ table, sameFrame r r2)

/-- Claim C2 as a predicate of one `search` call: the backend materializes
at most `fetch_total = max(n,0) + max(offset,0) + 1` rows, every returned
window is exactly the `[offset, offset+n)` slice of the fetched rows,
`has_more` holds iff strictly more than `offset + n` rows were fetched, and
the extra "+1" row can never appear in the window. -/
def searchSpecHolds (rowCount : Nat) (hasScore hasDist : Bool)
    (matched : List QRow) (n_results offset : Int) : Prop :=
  let requested := n_results.toNat
  let offsetVal := offset.toNat
  let fetched := matched.take (requested + offsetVal + 1)
  let res := lanceSearch true rowCount hasScore hasDist matched n_results offset
  fetched.length ≤ requested + offsetVal + 1 ∧
  res.documents = ((fetched.map (fun r => r.text)).drop offsetVal).take requested ∧
  res.metadatas = ((fetched.map (fun r => r.meta)).drop offsetVal).take requested ∧
  res.distances =
    ((distancesAllOf hasScore hasDist fetched).drop offsetVal).take requested ∧
  res.scores =
    ((scoresAllOf hasScore hasDist fetched).drop offsetVal).take requested ∧
  (res.hasMore = true ↔ offsetVal + requested < fetched.length) ∧
  res.documents.length ≤ requested

/-- Claim C3 as a predicate of one score/distance normalization: native
scores are clamped to `[0,1]`; with only a distance column the score is
`clamp(1 - distance, 0, 1)`; with only a score column the distance is
`max(0, 1 - score)` (from the clamped, i.e. returned, score); and all
emitted scores and distances satisfy the resulting bounds. -/
def normalizationSpecHolds (hasScore hasDist : Bool) (rows : List QRow) : Prop :=
  (hasScore = true →
    scoresAllOf hasScore hasDist rows = rows.map (fun r => clamp01 r.scoreVal)) ∧
  (hasScore = false → hasDist = true →
    scoresAllOf hasScore hasDist rows =
      rows.map (fun r => clamp01 (1 - r.distVal))) ∧
  (hasScore = true → hasDist = false →
    distancesAllOf hasScore hasDist rows =
      rows.map (fun r => max 0 (1 - clamp01 r.scoreVal))) ∧
  (hasDist = true →
    distancesAllOf hasScore hasDist rows = rows.map (fun r => max 0 r.distVal)) ∧
  (∀ s ∈ scoresAllOf hasScore hasDist rows, 0 ≤ s ∧ s ≤ 1) ∧
  (∀ d ∈ distancesAllOf hasScore hasDist rows, 0 ≤ d)

/-- The amended C4 as a predicate of one `search` call: an uninitialized
or zero-row table yields the canonical empty shape, and `n_results <= 0`
yields empty result windows (though, on a populated table, inside the full
paginated shape rather than the canonical three-key one). -/
def searchEmptySpec (tableExists : Bool) (rowCount : Nat)
    (hasScore hasDist : Bool) (matched : List QRow)
    (n_results offset : Int) : Prop :=
  let res := lanceSearch tableExists rowCount hasScore hasDist matched
    n_results offset
  (tableExists = false → res = SearchResult.empty) ∧
  (rowCount = 0 → res = SearchResult.empty) ∧
  (n_results ≤ 0 →
    res.documents = [] ∧ res.metadatas = [] ∧
    res.distances = [] ∧ res.scores = [])

/-- The amended C7 as a predicate of the `delete` return value: with no
table every call reports `True`; on an initialized table, neither a truthy
filter nor a truthy id list reports `False`, and a non-empty filter or a
non-empty id list reports `True`. -/
def deleteReturnSpec (filter : List (String × PyScalar))
    (ids : List String) : Prop :=
  lanceDelete false none none = true ∧
  lanceDelete false (some filter) (some ids) = true ∧
  lanceDelete true none none = false ∧
  lanceDelete true (some []) none = false ∧
  lanceDelete true none (some []) = false ∧
  (filter ≠ [] → lanceDelete true (some filter) none = true) ∧
  (ids ≠ [] → lanceDelete true none (some ids) = true)

/-- Within one rebuild run, every chunk of one document carries the batch
id drawn for that document. -/
def docBatchUniform (split : String → List String) (d : RDoc)
    (batch : String) (now : ℚ) : Prop :=
  ∀ m ∈ docMetas split d batch now, m.batch = some batch

/-! ## Shared concrete example values -/

/-- An insert-time metadata dictionary used in witnesses and
counterexamples. -/
def mEx : Meta :=
  { pdf_id := some 1, chunk_id := some "c0", publication_year := some 1999,
    authors := some ["A"], document_type := some "paper" }

/-- The record `_build_records` produces from `mEx`. -/
def recEx : ChunkRecord := buildRecord "hello" [] mEx

/-- A second metadata dictionary for the same document with a distinct
chunk id. -/
def mEx2 : Meta :=
  { pdf_id := some 1, chunk_id := some "c1", publication_year := some 1999,
    authors := some ["A"], document_type := some "paper" }

/-- The record `_build_records` produces from `mEx2`. -/
def recEx2 : ChunkRecord := buildRecord "tail" [] mEx2

/-- A table holding 100001 chunk rows of document 1: 100000 copies of
`recEx` followed by the distinct row `recEx2`, which lies beyond the
`limit(100000)` read-back cap of `update_document_metadata`. -/
def capTable : List ChunkRecord := List.replicate 100000 recEx ++ [recEx2]

/-- A sample fetched search row. -/
def qA : QRow := { text := "a", meta := {}, scoreVal := 0, distVal := (1 : ℚ) / 2 }

/-- A second sample fetched search row. -/
def qB : QRow := { text := "b", meta := {}, scoreVal := 1, distVal := 2 }

/-- The identity chunker: one chunk per page. -/
def splitWhole : String → List String := fun s => [s]

/-- A batch-id generator drawing two distinct 8-character ids. -/
def genA : Nat → String := fun k => if k = 0 then "aaaaaaaa" else "bbbbbbbb"

/-- A batch-id generator constantly drawing a third 8-character id. -/
def genC : Nat → String := fun _ => "cccccccc"

/-- An eligible one-page document. -/
def dW1 : RDoc :=
  { id := 1, filename := "f1", blacklisted := false, mdCurrent := true,
    pages := [{ page := 1, markdown := " x " }] }

/-- A second eligible document (its page 2 is whitespace-only). -/
def dW2 : RDoc :=
  { id := 2, filename := "f2", blacklisted := false, mdCurrent := true,
    pages := [{ page := 1, markdown := "y" }, { page := 2, markdown := "  " }] }

/-- The metadata row the rebuild builds for `dW1` under generator `genA`. -/
def mW1 : Meta :=
  { pdf_id := some 1, source := some "f1",
    chunk_id := some "rebuild-aaaaaaaa_0", page := some 1,
    batch := some "rebuild-aaaaaaaa", index := some 0, length := some 1,
    timestamp := some 0, publication_year := some 0, authors := some [],
    document_type := some "" }

/-- The metadata row the rebuild builds for `dW1` under generator `genC`. -/
def mWc : Meta :=
  { pdf_id := some 1, source := some "f1",
    chunk_id := some "rebuild-cccccccc_0", page := some 1,
    batch := some "rebuild-cccccccc", index := some 0, length := some 1,
    timestamp := some 0, publication_year := some 0, authors := some [],
    document_type := some "" }

/-- The metadata row the rebuild builds for `dW2` when `dW2` follows `dW1`
in the same run under generator `genA` (second draw: `"bbbbbbbb"`). -/
def mW2 : Meta :=
  { pdf_id := some 2, source := some "f2",
    chunk_id := some "rebuild-bbbbbbbb_0", page := some 1,
    batch := some "rebuild-bbbbbbbb", index := some 0, length := some 1,
    timestamp := some 0, publication_year := some 0, authors := some [],
    document_type := some "" }

/-- The example equality filter `{"publication_year": 2024}`. -/
def exFilter : List (String × PyScalar) := [("publication_year", PyScalar.int 2024)]

/-- A 200-character title. -/
def longTitle : List Char := List.replicate 200 'a'

/-! ## Theorems -/

/-- C1 (original statement refuted): updating a document's metadata leaves a
chunk row whose structured `publication_year` column (2023) disagrees with
the `publication_year` key still stored in its opaque JSON metadata blob
(1999) — the blob is not rewritten by the edit. -/
theorem metadata_blob_consistency_cex :
    ¬ (∀ r2 ∈ (update_document_metadata true [recEx] 1 (some 2023)
        none none).2, consistentRow r2) := by decide

/-- C1 (amended): consistency between the structured columns and the JSON
blob holds at insert time (`_build_records`), and `update_document_metadata`
preserves every surviving row's blob verbatim from some pre-update row —
so after an edit the blob keeps its pre-edit values instead of being kept
consistent with the overwritten columns. -/
theorem metadata_blob_preserved_under_update :
    (∀ (chunk : String) (embedding : List ℚ) (meta : Meta),
      consistentRow (buildRecord chunk embedding meta)) ∧
    (∀ (table : List ChunkRecord) (pdf_id : Int) (py : Option Int)
      (au : Option (List String)) (dt : Option String),
      updateBlobPreserved table pdf_id py au dt) := by
  constructor
  · intro chunk embedding meta
    exact ⟨rfl, rfl, rfl⟩
  · intro table pid py au dt
    intro r2 hr2
    unfold update_document_metadata at hr2
    simp only [Bool.true_eq_false, if_false, reduceIte] at hr2
    by_cases hm : ((table.filter (fun r => r.pdf_id == pid)).take 100000).isEmpty
    · rw [if_pos hm] at hr2
      exact ⟨r2, hr2, rfl⟩
    · rw [if_neg hm] at hr2
      rcases List.mem_append.mp hr2 with h | h
      · exact ⟨r2, (List.mem_filter.mp h).1, rfl⟩
      · rcases List.mem_map.mp h with ⟨r, hrmem, hEq⟩
        refine ⟨r,
          (List.mem_filter.mp ((List.take_sublist _ _).mem hrmem)).1, ?_⟩
        rw [← hEq]
        rfl

/-- Witness for the amended C1 at concrete inputs. -/
theorem metadata_blob_preserved_witness :
    consistentRow (buildRecord "hello" [] mEx) ∧
    updateBlobPreserved [recEx] 1 (some 2023) none none :=
  ⟨metadata_blob_preserved_under_update.1 "hello" [] mEx,
   metadata_blob_preserved_under_update.2 [recEx] 1 (some 2023) none none⟩

/-- C4 (original statement refuted): on a populated one-row table,
`search` with `n_results = 0` does not return the canonical empty shape —
it returns the full paginated shape (with empty windows, `has_more = true`
and `total_fetched = 1`). -/
theorem search_empty_shape_cex :
    ¬ (lanceSearch true 1 false true [qA] 0 0 = SearchResult.empty) := by
  decide

/-- C4 (amended): an uninitialized table or a zero-row table yields the
canonical empty shape; `n_results <= 0` yields empty `documents`,
`metadatas`, `distances` and `scores` windows (inside the full paginated
shape when the table is populated); `search` is a total function of its
inputs (never raises). -/
theorem search_empty_or_degenerate :
    ∀ (tableExists : Bool) (rowCount : Nat) (hasScore hasDist : Bool)
      (matched : List QRow) (n_results offset : Int),
      searchEmptySpec tableExists rowCount hasScore hasDist matched
        n_results offset := by
  intro te rc hs hd matched n off
  refine ⟨?_, ?_, ?_⟩
  · intro h; subst h; simp [lanceSearch]
  · intro h; subst h
    cases te <;> simp [lanceSearch]
  · intro hn
    have h0 : n.toNat = 0 := Int.toNat_of_nonpos hn
    cases te
    · simp [lanceSearch, SearchResult.documents, SearchResult.metadatas,
        SearchResult.distances, SearchResult.scores]
    · by_cases hrc : rc = 0
      · simp [lanceSearch, hrc, SearchResult.documents, SearchResult.metadatas,
          SearchResult.distances, SearchResult.scores]
      · by_cases hf : (matched.take (n.toNat + off.toNat + 1)).isEmpty
        · simp [lanceSearch, hrc, hf, SearchResult.documents,
            SearchResult.metadatas, SearchResult.distances, SearchResult.scores]
        · simp [lanceSearch, hrc, hf, h0, SearchResult.documents,
            SearchResult.metadatas, SearchResult.distances, SearchResult.scores]
          by_cases hm2 : matched = [] <;>
            simp [hm2, SearchResult.documents, SearchResult.metadatas,
              SearchResult.distances, SearchResult.scores]

/-- Witness for the amended C4 at concrete inputs. -/
theorem search_empty_or_degenerate_witness :
    searchEmptySpec true 1 false true [qA] 0 0 :=
  search_empty_or_degenerate true 1 false true [qA] 0 0

/-- C5 (code bug, evaluated at the failing input
`filter = {"publication_year": 2024}`): `search` hands the raw mapping to
the query's `where` — not the translated SQL equality conjunction that
`_delete_where_expr` builds for `delete` — although the underlying index
accepts only the SQL-string form. -/
theorem search_filter_untranslated_bug :
    searchWhereArg (some exFilter) = some (WhereArg.rawMapping exFilter) ∧
    deleteWhereArg exFilter =
      some (WhereArg.sqlExpr "publication_year == 2024") ∧
    searchWhereArg (some exFilter) ≠ deleteWhereArg exFilter := by
  decide

/-- C7 (original statement refuted): on an uninitialized table, `delete`
called with neither a filter nor ids returns `True`, not `False` — the
"invalid use reported as false" rule does not hold regardless of table
state. -/
theorem delete_invalid_use_cex :
    ¬ (lanceDelete false none none = false) := by decide

/-- C7 (amended): with no table, `delete` returns `True` unconditionally;
on an initialized table, calling with neither a truthy filter nor a truthy
id list returns `False`, and a non-empty filter or non-empty id list
returns `True`. -/
theorem delete_return_semantics :
    ∀ (filter : List (String × PyScalar)) (ids : List String),
      deleteReturnSpec filter ids := by
  intro f ids
  refine ⟨rfl, rfl, rfl, rfl, rfl, ?_, ?_⟩
  · intro hf
    simp [lanceDelete, List.isEmpty_iff, hf]
  · intro hids
    simp [lanceDelete, List.isEmpty_iff, hids]

/-- Witness for the amended C7 at concrete inputs. -/
theorem delete_return_semantics_witness :
    deleteReturnSpec exFilter ["doc_1_c0"] :=
  delete_return_semantics exFilter ["doc_1_c0"]

/-- A filter that accepts the replicated element keeps the whole list. -/
theorem replicate_filter_pos (n : Nat) (x : ChunkRecord)
    (p : ChunkRecord → Bool) (hp : p x = true) :
    (List.replicate n x).filter p = List.replicate n x := by
  induction n with
  | zero => rfl
  | succ m ih => simp [List.replicate_succ, List.filter_cons, hp, ih]

/-- A filter that rejects the replicated element drops the whole list. -/
theorem replicate_filter_neg (n : Nat) (x : ChunkRecord)
    (p : ChunkRecord → Bool) (hp : p x = false) :
    (List.replicate n x).filter p = [] := by
  induction n with
  | zero => rfl
  | succ m ih => simp [List.replicate_succ, List.filter_cons, hp, ih]

/-- A non-trivial replication is not empty. -/
theorem replicate_isEmpty_false (n : Nat) (hn : n ≠ 0) (x : ChunkRecord) :
    (List.replicate n x).isEmpty = false := by
  cases n with
  | zero => omega
  | succ m => simp [List.replicate_succ]

/-- The update on `capTable`: the `limit(100000)` read-back fetches only
the first 100000 matching rows, the delete removes all 100001, and only
the fetched reconstructions are re-inserted — `recEx2` is lost. -/
theorem capTable_update_result :
    (update_document_metadata true capTable 1 (some 2023) none none).2 =
      List.replicate 100000 (rebuildRow recEx (some 2023) none none) := by
  have hp : (fun r : ChunkRecord => r.pdf_id == (1 : Int)) recEx = true := by
    decide
  have hp2 : (recEx2.pdf_id == (1 : Int)) = true := by decide
  have hq : (fun r : ChunkRecord => !(r.pdf_id == (1 : Int))) recEx = false := by
    decide
  have hq2 : (!(recEx2.pdf_id == (1 : Int))) = false := by decide
  have htake : (List.replicate 100000 recEx ++ [recEx2]).take 100000 =
      List.replicate 100000 recEx := by
    have h := List.take_left (List.replicate 100000 recEx) [recEx2]
    rwa [List.length_replicate] at h
  unfold update_document_metadata capTable
  simp only [Bool.true_eq_false, reduceIte, List.filter_append,
    replicate_filter_pos 100000 recEx (fun r => r.pdf_id == (1 : Int)) hp,
    replicate_filter_neg 100000 recEx (fun r => !(r.pdf_id == (1 : Int))) hq,
    List.filter_cons, hp2, hq2, List.filter_nil, reduceIte,
    List.append_nil, htake,
    replicate_isEmpty_false 100000 (by omega) recEx, Bool.false_eq_true,
    Bool.not_true, List.map_replicate, List.nil_append]

/-- C6 (original statement refuted): on a table holding 100001 chunk rows
of one document — 100000 identical rows followed by a distinct one — a
successful `update_document_metadata` does not rewrite all of the
document's chunk rows: the distinct row beyond the `limit(100000)`
read-back cap is deleted without being re-inserted, so neither it nor its
reconstruction survives. -/
theorem update_metadata_cap_cex :
    ¬ updateSpecHolds capTable 1 (some 2023) none none := by
  intro h
  have h4 := h.2.2.2.1 recEx2
    (show recEx2 ∈ capTable from
      List.mem_append.mpr (Or.inr (List.mem_singleton.mpr rfl))) (by decide)
  rw [capTable_update_result] at h4
  have hEq := List.eq_of_mem_replicate h4
  have hc := congrArg ChunkRecord.chunk_id hEq
  exact absurd hc (by decide)

/-- C6 (amended): a successful `update_document_metadata` on an
initialized table, for a document whose matching chunk rows number at
most 100000 (the `limit(100000)` read-back cap), succeeds, is a no-op
when no chunk row matches, keeps every non-matching row, rewrites every
matching row with the new (sentinel-coerced) metadata columns, and
preserves every other column of every surviving row verbatim.  Beyond the
cap, excess rows are deleted without re-insertion (see
`update_metadata_cap_cex`). -/
theorem update_metadata_full_rewrite :
    ∀ (table : List ChunkRecord) (pdf_id : Int) (py : Option Int)
      (au : Option (List String)) (dt : Option String),
      (table.filter (fun r => r.pdf_id == pdf_id)).length ≤ 100000 →
      updateSpecHolds table pdf_id py au dt := by
  intro table pid py au dt hcap
  unfold updateSpecHolds update_document_metadata
  simp only [Bool.true_eq_false, reduceIte]
  rw [List.take_of_length_le hcap]
  by_cases hm : (table.filter (fun r => r.pdf_id == pid)).isEmpty
  · rw [if_pos hm]
    rw [List.isEmpty_iff] at hm
    refine ⟨rfl, fun _ => rfl, ?_, ?_, ?_, ?_⟩
    · intro r hr _; exact hr
    · intro r hr hpid
      exfalso
      have hmem : r ∈ table.filter (fun r => r.pdf_id == pid) :=
        List.mem_filter.mpr ⟨hr, by simp [hpid]⟩
      simp [hm] at hmem
    · intro r2 h2 hpid
      exfalso
      have hmem : r2 ∈ table.filter (fun r => r.pdf_id == pid) :=
        List.mem_filter.mpr ⟨h2, by simp [hpid]⟩
      simp [hm] at hmem
    · intro r2 h2
      exact ⟨r2, h2, rfl, rfl, rfl, rfl, rfl, rfl, rfl, rfl, rfl, rfl, rfl, rfl⟩
  · rw [if_neg hm]
    refine ⟨rfl, ?_, ?_, ?_, ?_, ?_⟩
    · intro hall
      exfalso
      apply hm
      rw [List.isEmpty_iff, List.filter_eq_nil_iff]
      intro r hr
      simp [hall r hr]
    · intro r hr hne
      exact List.mem_append.mpr (Or.inl (List.mem_filter.mpr ⟨hr, by simp [hne]⟩))
    · intro r hr hpid
      exact List.mem_append.mpr (Or.inr
        (List.mem_map.mpr ⟨r, List.mem_filter.mpr ⟨hr, by simp [hpid]⟩, rfl⟩))
    · intro r2 h2 hpid
      rcases List.mem_append.mp h2 with h | h
      · exfalso
        have := (List.mem_filter.mp h).2
        simp [hpid] at this
      · rcases List.mem_map.mp h with ⟨r, _, hEq⟩
        rw [← hEq]
        exact ⟨rfl, rfl, rfl⟩
    · intro r2 h2
      rcases List.mem_append.mp h2 with h | h
      · exact ⟨r2, (List.mem_filter.mp h).1, rfl, rfl, rfl, rfl, rfl, rfl,
          rfl, rfl, rfl, rfl, rfl, rfl⟩
      · rcases List.mem_map.mp h with ⟨r, hrmem, hEq⟩
        refine ⟨r, (List.mem_filter.mp hrmem).1, ?_⟩
        rw [← hEq]
        exact ⟨rfl, rfl, rfl, rfl, rfl, rfl, rfl, rfl, rfl, rfl, rfl, rfl⟩

/-- Witness for the amended C6 at concrete inputs. -/
theorem update_metadata_full_rewrite_witness :
    updateSpecHolds [recEx] 1 (some 2023) none none :=
  update_metadata_full_rewrite [recEx] 1 (some 2023) none none (by decide)


/-- C2 (confirmed): on a populated table, `search` materializes at most
`fetch_total = max(n_results,0) + max(offset,0) + 1` rows (a quantity that
is always at least 1), each returned window is exactly the
`[offset, offset+n_results)` slice of the fetched rows, `has_more` holds
iff strictly more than `offset + n_results` rows were fetched, and the
returned window never exceeds `n_results` rows — so the "+1" probe row is
never returned.  `Int.toNat` is the `max(int(x or 0), 0)` clamp the source
applies to both integers before any of this arithmetic. -/
theorem search_pagination_window :
    ∀ (rowCount : Nat) (hasScore hasDist : Bool) (matched : List QRow)
      (n_results offset : Int), rowCount ≠ 0 →
      searchSpecHolds rowCount hasScore hasDist matched n_results offset := by
  intro rc hs hd matched n off hrc
  unfold searchSpecHolds lanceSearch
  simp only [Bool.true_eq_false, reduceIte, hrc, if_false, Nat.add_one_ne_zero]
  by_cases hf : (matched.take (n.toNat + off.toNat + 1)).isEmpty
  · simp only [hf, reduceIte, List.isEmpty_iff.mp hf]
    simp [SearchResult.documents, SearchResult.metadatas,
      SearchResult.distances, SearchResult.scores, SearchResult.hasMore,
      scoresAllOf, distancesAllOf]
  · simp only [hf, reduceIte]
    by_cases hreq : 0 < n.toNat
    · simp only [hreq, reduceIte, SearchResult.documents, SearchResult.metadatas,
        SearchResult.distances, SearchResult.scores, SearchResult.hasMore]
      refine ⟨List.length_take_le _ _, rfl, rfl, rfl, rfl, ?_, ?_⟩
      · simp [List.length_map]
      · simp [List.length_take]
    · have h0 : n.toNat = 0 := by omega
      simp only [hreq, reduceIte, h0, SearchResult.documents,
        SearchResult.metadatas, SearchResult.distances, SearchResult.scores,
        SearchResult.hasMore]
      simp [List.length_map]

/-- Witness for C2 at concrete inputs. -/
theorem search_pagination_window_witness :
    searchSpecHolds 2 false true [qA, qB] 1 0 :=
  search_pagination_window 2 false true [qA, qB] 1 0 (by decide)

/-- C3 (confirmed): a native score column is clamped to `[0,1]`; with only
a distance column, scores derive as `clamp(1 - distance, 0, 1)`; with only
a score column, distances derive as `max(0, 1 - score)` from the clamped
(returned) score; a native distance column is floored at 0; and every
emitted score lies in `[0,1]` while every emitted distance is
non-negative. -/
theorem search_score_distance_normalization :
    ∀ (hasScore hasDist : Bool) (rows : List QRow),
      normalizationSpecHolds hasScore hasDist rows := by
  intro hs hd rows
  have hb : ∀ x : ℚ, 0 ≤ clamp01 x ∧ clamp01 x ≤ 1 := by
    intro x
    exact ⟨le_max_left 0 _, max_le (by norm_num) (min_le_left 1 x)⟩
  refine ⟨?_, ?_, ?_, ?_, ?_, ?_⟩
  · intro h; simp [scoresAllOf, h]
  · intro h1 h2; simp [scoresAllOf, h1, h2]
  · intro h1 h2
    simp [distancesAllOf, scoresAllOf, h1, h2]
  · intro h; simp [distancesAllOf, h]
  · intro s hsmem
    unfold scoresAllOf at hsmem
    by_cases h1 : hs = true
    · simp only [h1, reduceIte] at hsmem
      rcases List.mem_map.mp hsmem with ⟨r, _, hEq⟩
      rw [← hEq]; exact hb _
    · rw [Bool.not_eq_true] at h1
      by_cases h2 : hd = true
      · simp only [h1, h2, Bool.false_eq_true, reduceIte] at hsmem
        rcases List.mem_map.mp hsmem with ⟨r, _, hEq⟩
        rw [← hEq]; exact hb _
      · rw [Bool.not_eq_true] at h2
        simp only [h1, h2, Bool.false_eq_true, reduceIte] at hsmem
        rcases List.mem_map.mp hsmem with ⟨r, _, hEq⟩
        rw [← hEq]; norm_num
  · intro d hdmem
    unfold distancesAllOf at hdmem
    by_cases h2 : hd = true
    · simp only [h2, reduceIte] at hdmem
      rcases List.mem_map.mp hdmem with ⟨r, _, hEq⟩
      rw [← hEq]; exact le_max_left 0 _
    · rw [Bool.not_eq_true] at h2
      simp only [h2, Bool.false_eq_true, reduceIte] at hdmem
      rcases List.mem_map.mp hdmem with ⟨s, _, hEq⟩
      rw [← hEq]; exact le_max_left 0 _

/-- Witness for C3 at concrete inputs. -/
theorem search_score_distance_normalization_witness :
    normalizationSpecHolds false true [qA, qB] :=
  search_score_distance_normalization false true [qA, qB]

/-- Shape of every metadata row one document contributes to a rebuild
batch: its `batch` field is the supplied batch id, and its `chunk_id` is
the batch id followed by an underscore and the chunk counter. -/
theorem docMetas_mem_shape (split : String → List String) (d : RDoc)
    (batch : String) (now : ℚ) (m : Meta)
    (hm : m ∈ docMetas split d batch now) :
    m.batch = some batch ∧
      ∃ i : Nat, m.chunk_id = some (batch ++ "_" ++ toString i) := by
  unfold docMetas at hm
  rcases List.mem_map.mp hm with ⟨ic, _, hEq⟩
  rw [← hEq]
  exact ⟨rfl, ic.1, rfl⟩

/-- Shape of every metadata row a rebuild scan inserts: its batch id is
`"rebuild-"` followed by some draw of the id generator, and its chunk id
extends that batch id with an underscore and a counter. -/
theorem rebuildScan_mem_shape (split : String → List String)
    (gen : Nat → String) (now : ℚ) :
    ∀ (docs : List RDoc) (k : Nat) (m : Meta),
    m ∈ rebuildScan split gen now k docs →
    ∃ (j i : Nat), m.batch = some ("rebuild-" ++ gen j) ∧
      m.chunk_id = some ("rebuild-" ++ gen j ++ "_" ++ toString i) := by
  intro docs
  induction docs with
  | nil => intro k m hm; simp [rebuildScan] at hm
  | cons d ds ih =>
    intro k m hm
    unfold rebuildScan at hm
    by_cases h1 : d.blacklisted = true
    · rw [if_pos h1] at hm; exact ih k m hm
    · rw [if_neg h1] at hm
      by_cases h2 : d.mdCurrent = false
      · rw [if_pos h2] at hm; exact ih k m hm
      · rw [if_neg h2] at hm
        by_cases h3 : d.pages.isEmpty = true
        · rw [if_pos h3] at hm; exact ih k m hm
        · rw [if_neg h3] at hm
          rcases List.mem_append.mp hm with h | h
          · rcases docMetas_mem_shape _ _ _ _ _ h with ⟨hb, i, hc⟩
            exact ⟨k, i, hb, hc⟩
          · exact ih (k + 1) m h

/-- Two rebuild chunk ids built from distinct equal-length (8-character)
generator draws are distinct strings. -/
theorem batch_tagged_ne (g1 g2 r1 r2 : String) (h1 : g1.length = 8)
    (h2 : g2.length = 8) (hne : g1 ≠ g2) :
    ("rebuild-" ++ g1 ++ "_" ++ r1) ≠ ("rebuild-" ++ g2 ++ "_" ++ r2) := by
  intro h
  apply hne
  have hd : ("rebuild-" ++ g1 ++ "_" ++ r1).data =
      ("rebuild-" ++ g2 ++ "_" ++ r2).data := congrArg String.data h
  simp only [String.data_append, List.append_assoc] at hd
  have hd2 := List.append_cancel_left hd
  have hg := (List.append_inj hd2 (by
    rw [show g1.data.length = g1.length from rfl,
      show g2.data.length = g2.length from rfl, h1, h2])).1
  cases g1; cases g2; exact congrArg String.mk hg

/-- C8 (original statement refuted): in a single reconciliation run over
two eligible documents, the two inserted chunks carry two different batch
ids — the batch id is drawn freshly per document, not once per run. -/
theorem rebuild_batch_per_run_cex :
    ¬ (∃ b : String,
        ∀ m ∈ rebuild_from_markdown 0 splitWhole genA 0 [dW1, dW2],
          m.batch = some b) := by
  rintro ⟨b, hb⟩
  have h1 := hb mW1 (by decide)
  have h2 := hb mW2 (by decide)
  rw [show mW1.batch = some "rebuild-aaaaaaaa" from rfl] at h1
  rw [show mW2.batch = some "rebuild-bbbbbbbb" from rfl] at h2
  rw [← h2] at h1
  exact absurd (Option.some.inj h1) (by decide)

/-- C8 (amended): the batch id is freshly drawn per document within a run;
every chunk of one document carries that document's batch id; and since
each draw is a fresh 8-hex-character value, chunk ids from two runs whose
draws never coincide can never collide. -/
theorem rebuild_batch_freshness :
    (∀ (split : String → List String) (d : RDoc) (batch : String) (now : ℚ),
      docBatchUniform split d batch now) ∧
    (∀ (split split2 : String → List String) (gen gen2 : Nat → String)
      (now now2 : ℚ) (docs docs2 : List RDoc),
      (∀ k, (gen k).length = 8) → (∀ k, (gen2 k).length = 8) →
      (∀ k k2, gen k ≠ gen2 k2) →
      ∀ m ∈ rebuild_from_markdown 0 split gen now docs,
      ∀ m2 ∈ rebuild_from_markdown 0 split2 gen2 now2 docs2,
      m.chunk_id ≠ m2.chunk_id) := by
  constructor
  · intro split d batch now m hm
    exact (docMetas_mem_shape split d batch now m hm).1
  · intro split split2 gen gen2 now now2 docs docs2 h8 h8b hfresh m hm m2 hm2
    unfold rebuild_from_markdown at hm hm2
    simp only [lt_irrefl, reduceIte] at hm hm2
    rcases rebuildScan_mem_shape split gen now docs 0 m hm with ⟨j, i, _, hc⟩
    rcases rebuildScan_mem_shape split2 gen2 now2 docs2 0 m2 hm2 with
      ⟨j2, i2, _, hc2⟩
    rw [hc, hc2]
    intro h
    exact batch_tagged_ne (gen j) (gen2 j2) _ _ (h8 j) (h8b j2) (hfresh j j2)
      (Option.some.inj h)

/-- Witness for the amended C8 at concrete inputs. -/
theorem rebuild_batch_freshness_witness :
    docBatchUniform splitWhole dW1 "b1" 0 ∧ mW1.chunk_id ≠ mWc.chunk_id :=
  ⟨rebuild_batch_freshness.1 splitWhole dW1 "b1" 0,
   rebuild_batch_freshness.2 splitWhole splitWhole genA genC 0 0 [dW1] [dW1]
    (fun k => by unfold genA; split <;> rfl) (fun _ => rfl)
    (fun k k2 => by unfold genA genC; split <;> decide)
    mW1 (by decide) mWc (by decide)⟩

/-- A map that fixes every element of a list is the identity on it. -/
theorem map_self_of (f : Char → Char) :
    ∀ l : List Char, (∀ c ∈ l, f c = c) → l.map f = l := by
  intro l
  induction l with
  | nil => intro _; rfl
  | cons c cs ih =>
    intro h
    simp only [List.map_cons]
    rw [h c (by simp), ih (fun d hd => h d (by simp [hd]))]

/-- Every character a collapse pass emits is either the inserted `_` or an
original character not matched by the collapsed class. -/
theorem collapseAux_mem (p : Char → Bool) :
    ∀ (l : List Char) (b : Bool) (c : Char),
    c ∈ collapseAux p b l → c = '_' ∨ (c ∈ l ∧ p c = false) := by
  intro l
  induction l with
  | nil => intro b c hc; simp [collapseAux] at hc
  | cons d ds ih =>
    intro b c hc
    unfold collapseAux at hc
    by_cases hp : p d = true
    · rw [if_pos hp] at hc
      cases b
      · simp only [Bool.false_eq_true, reduceIte] at hc
        rcases List.mem_cons.mp hc with h | h
        · exact Or.inl h
        · rcases ih true c h with h2 | ⟨h3, h4⟩
          · exact Or.inl h2
          · exact Or.inr ⟨List.mem_cons_of_mem d h3, h4⟩
      · simp only [reduceIte] at hc
        rcases ih true c hc with h2 | ⟨h3, h4⟩
        · exact Or.inl h2
        · exact Or.inr ⟨List.mem_cons_of_mem d h3, h4⟩
    · rw [if_neg hp] at hc
      rcases List.mem_cons.mp hc with h | h
      · subst h
        exact Or.inr ⟨List.mem_cons_self _ _, Bool.not_eq_true _ |>.mp hp⟩
      · rcases ih false c h with h2 | ⟨h3, h4⟩
        · exact Or.inl h2
        · exact Or.inr ⟨List.mem_cons_of_mem d h3, h4⟩

/-- A collapse pass started inside a run never emits a matched character
first. -/
theorem collapseAux_true_head (p : Char → Bool) :
    ∀ l : List Char, ∀ h ∈ (collapseAux p true l).head?, p h = false := by
  intro l
  induction l with
  | nil => intro h hh; simp [collapseAux] at hh
  | cons d ds ih =>
    intro h hh
    unfold collapseAux at hh
    by_cases hp : p d = true
    · rw [if_pos hp] at hh
      simp only [reduceIte] at hh
      exact ih h hh
    · rw [if_neg hp] at hh
      simp only [List.head?_cons, Option.mem_def, Option.some.injEq] at hh
      rw [← hh]
      exact Bool.not_eq_true _ |>.mp hp

/-- After a collapse pass, no two adjacent characters both match the
collapsed class. -/
theorem collapseAux_chain (p : Char → Bool) :
    ∀ (l : List Char) (b : Bool),
    List.Chain' (fun a c => ¬(p a = true ∧ p c = true)) (collapseAux p b l) := by
  intro l
  induction l with
  | nil => intro b; simp [collapseAux]
  | cons d ds ih =>
    intro b
    unfold collapseAux
    by_cases hp : p d = true
    · rw [if_pos hp]
      cases b
      · simp only [Bool.false_eq_true, reduceIte]
        rw [List.chain'_cons']
        refine ⟨?_, ih true⟩
        intro h hh
        have := collapseAux_true_head p ds h hh
        simp [this]
      · simp only [reduceIte]
        exact ih true
    · rw [if_neg hp]
      rw [List.chain'_cons']
      refine ⟨?_, ih false⟩
      intro h _
      simp [hp]

/-- A collapse pass over a list without matched characters is the
identity. -/
theorem collapseAux_self (p : Char → Bool) :
    ∀ (l : List Char) (b : Bool), (∀ c ∈ l, p c = false) →
    collapseAux p b l = l := by
  intro l
  induction l with
  | nil => intro b _; rfl
  | cons d ds ih =>
    intro b h
    unfold collapseAux
    rw [if_neg (by simp [h d (by simp)])]
    rw [ih false (fun c hc => h c (by simp [hc]))]

/-- The underscore-collapse pass is the identity on lists without adjacent
underscores (when not started inside a run whose head is an underscore). -/
theorem collapseAux_id_of_chain :
    ∀ (l : List Char) (b : Bool),
    List.Chain' (fun a c => ¬(a = '_' ∧ c = '_')) l →
    (b = true → ∀ h ∈ l.head?, h ≠ '_') →
    collapseAux (fun c => c == '_') b l = l := by
  intro l
  induction l with
  | nil => intro b _ _; rfl
  | cons d ds ih =>
    intro b hchain hhead
    unfold collapseAux
    by_cases hd : d = '_'
    · cases b
      · simp only [hd, beq_self_eq_true, Bool.false_eq_true, reduceIte,
          List.cons.injEq, true_and]
        apply ih true (hchain.tail)
        intro _ h hh
        have hrel := (List.chain'_cons'.mp hchain).1 h hh
        intro hcontra
        exact hrel ⟨hd, hcontra⟩
      · exact absurd hd (hhead rfl d (by simp))
    · rw [if_neg (by simp [hd])]
      rw [ih false (hchain.tail) (fun hcontra => nomatch hcontra)]

/-- The head surviving a `dropWhile` never satisfies the dropped class. -/
theorem dropWhile_head_false (q : Char → Bool) :
    ∀ l : List Char, ∀ h ∈ (l.dropWhile q).head?, q h = false := by
  intro l
  induction l with
  | nil => intro h hh; simp at hh
  | cons d ds ih =>
    intro h hh
    rw [List.dropWhile_cons] at hh
    by_cases hq : q d = true
    · rw [if_pos hq] at hh
      exact ih h hh
    · rw [if_neg hq] at hh
      simp only [List.head?_cons, Option.mem_def, Option.some.injEq] at hh
      rw [← hh]
      exact Bool.not_eq_true _ |>.mp hq

/-- `dropWhile` is the identity when the head does not satisfy the class. -/
theorem dropWhile_id_of_head (q : Char → Bool) :
    ∀ l : List Char, (∀ h ∈ l.head?, q h = false) → l.dropWhile q = l := by
  intro l h
  cases l with
  | nil => rfl
  | cons d ds =>
    rw [List.dropWhile_cons, if_neg (by simp [h d (by simp)])]

/-- The head of `lstrip('_')` output is never an underscore. -/
theorem lstripU_head : ∀ (l : List Char), ∀ h ∈ (lstripU l).head?, h ≠ '_' := by
  intro l h hh
  have := dropWhile_head_false (fun c => c == '_') l h hh
  simpa using this

/-- The last character of `rstrip('_')` output is never an underscore. -/
theorem rstripU_getLast :
    ∀ (l : List Char), ∀ h ∈ (rstripU l).getLast?, h ≠ '_' := by
  intro l h hh
  unfold rstripU at hh
  rw [List.getLast?_reverse] at hh
  have := dropWhile_head_false (fun c => c == '_') l.reverse h hh
  simpa using this

/-- A list is its `rstrip('_')` output followed by the stripped tail. -/
theorem rstripU_decomp (l : List Char) :
    l = rstripU l ++ (l.reverse.takeWhile (fun c => c == '_')).reverse := by
  unfold rstripU
  rw [← List.reverse_append, List.takeWhile_append_dropWhile, List.reverse_reverse]

/-- The head of a decomposed list is the head of its first block. -/
theorem head?_of_decomp (l a b : List Char) (hdec : l = a ++ b) :
    ∀ h ∈ a.head?, l.head? = some h := by
  intro h hh
  cases a with
  | nil => simp at hh
  | cons x xs =>
    simp only [List.head?_cons, Option.mem_def, Option.some.injEq] at hh
    rw [hdec, List.cons_append, List.head?_cons, hh]

/-- `rstrip('_')` keeps the original head. -/
theorem rstripU_head (l : List Char) :
    ∀ h ∈ (rstripU l).head?, l.head? = some h :=
  head?_of_decomp l (rstripU l) _ (rstripU_decomp l)

/-- `rstrip('_')` output characters come from the input. -/
theorem rstripU_mem (l : List Char) (c : Char) (hc : c ∈ rstripU l) : c ∈ l := by
  unfold rstripU at hc
  rw [List.mem_reverse] at hc
  have := (List.dropWhile_sublist (l := l.reverse) (fun c => c == '_')).mem hc
  simpa using this

/-- `rstrip('_')` never lengthens a list. -/
theorem rstripU_length (l : List Char) : (rstripU l).length ≤ l.length := by
  unfold rstripU
  rw [List.length_reverse]
  calc (l.reverse.dropWhile (fun c => c == '_')).length
      ≤ l.reverse.length := (List.dropWhile_sublist _).length_le
    _ = l.length := List.length_reverse l

/-- The no-adjacent-underscores relation is symmetric. -/
theorem chain_flip_self (l : List Char)
    (h : List.Chain' (fun a c => ¬(a = '_' ∧ c = '_')) l) :
    List.Chain' (flip (fun a c => ¬(a = '_' ∧ c = '_'))) l := by
  refine h.imp ?_
  intro a c hac
  intro hcontra
  exact hac ⟨hcontra.2, hcontra.1⟩

/-- `rstrip('_')` preserves the collapsed-runs property. -/
theorem rstripU_chain (l : List Char)
    (h : List.Chain' (fun a c => ¬(a = '_' ∧ c = '_')) l) :
    List.Chain' (fun a c => ¬(a = '_' ∧ c = '_')) (rstripU l) := by
  unfold rstripU
  rw [List.chain'_reverse]
  have hrev : List.Chain' (fun a c => ¬(a = '_' ∧ c = '_')) l.reverse := by
    rw [List.chain'_reverse]
    exact chain_flip_self l h
  have hdec := List.takeWhile_append_dropWhile (fun c => c == '_') l.reverse
  rw [← hdec] at hrev
  exact chain_flip_self _ (hrev.right_of_append)

/-- `lstrip('_')` preserves the collapsed-runs property. -/
theorem lstripU_chain (l : List Char)
    (h : List.Chain' (fun a c => ¬(a = '_' ∧ c = '_')) l) :
    List.Chain' (fun a c => ¬(a = '_' ∧ c = '_')) (lstripU l) := by
  unfold lstripU
  have hdec := List.takeWhile_append_dropWhile (fun c => c == '_') l
  rw [← hdec] at h
  exact h.right_of_append

/-- `lstrip('_')` output characters come from the input. -/
theorem lstripU_mem (l : List Char) (c : Char) (hc : c ∈ lstripU l) : c ∈ l :=
  (List.dropWhile_sublist _).mem hc

/-- `lstrip('_')` never lengthens a list. -/
theorem lstripU_length (l : List Char) : (lstripU l).length ≤ l.length :=
  (List.dropWhile_sublist _).length_le

/-- `lstrip('_')` preserves a non-underscore last character. -/
theorem lstripU_getLast (l : List Char)
    (h : ∀ x ∈ l.getLast?, x ≠ '_') :
    ∀ x ∈ (lstripU l).getLast?, x ≠ '_' := by
  intro x hx
  apply h
  have hdec := List.takeWhile_append_dropWhile (fun c => c == '_') l
  rw [← hdec]
  exact List.mem_getLast?_append_of_mem_getLast? hx

/-- `rstrip('_')` is the identity when the last character is not an
underscore. -/
theorem rstripU_id (l : List Char) (h : ∀ x ∈ l.getLast?, x ≠ '_') :
    rstripU l = l := by
  unfold rstripU
  rw [dropWhile_id_of_head, List.reverse_reverse]
  intro x hx
  rw [List.head?_reverse] at hx
  simpa using h x hx

/-- `lstrip('_')` is the identity when the head is not an underscore. -/
theorem lstripU_id (l : List Char) (h : ∀ x ∈ l.head?, x ≠ '_') :
    lstripU l = l := by
  unfold lstripU
  apply dropWhile_id_of_head
  intro x hx
  simpa using h x hx

/-- Replacing unsafe characters never produces an unsafe character. -/
theorem replaceUnsafe_safe (c : Char) : unsafeChar (replaceUnsafe c) = false := by
  unfold replaceUnsafe
  by_cases h : unsafeChar c = true
  · rw [if_pos h]; decide
  · rw [if_neg h]; exact Bool.not_eq_true _ |>.mp h

/-- A positive `take` keeps the head. -/
theorem head?_take_pos (n : Nat) (hn : 0 < n) (l : List Char) :
    (l.take n).head? = l.head? := by
  cases l with
  | nil => simp
  | cons c cs =>
    cases n with
    | zero => omega
    | succ m => simp

/-- `sanitize_filename` output is in normal form: clean character set,
collapsed underscore runs, no underscore at either end, length at most
150. -/
theorem sanitize_saneName : ∀ s : List Char, SaneName (sanitize_filename s) := by
  intro s
  unfold sanitize_filename
  by_cases hs : s = []
  · rw [if_pos hs]
    exact ⟨by simp [NoBadChars], by simp [RunFreeU], by simp, by simp, by simp⟩
  · rw [if_neg hs]
    show SaneName (if 150 <
        (rstripU (lstripU (collapseAux (fun c => c == '_') false
          (collapseAux pySpace false (s.map replaceUnsafe))))).length then
      rstripU ((rstripU (lstripU (collapseAux (fun c => c == '_') false
        (collapseAux pySpace false (s.map replaceUnsafe))))).take 150)
      else rstripU (lstripU (collapseAux (fun c => c == '_') false
        (collapseAux pySpace false (s.map replaceUnsafe)))))
    have h1 : ∀ c ∈ s.map replaceUnsafe, unsafeChar c = false := by
      intro c hc
      rcases List.mem_map.mp hc with ⟨d, _, hEq⟩
      rw [← hEq]
      exact replaceUnsafe_safe d
    have h2 : NoBadChars (collapseAux pySpace false (s.map replaceUnsafe)) := by
      intro c hc
      rcases collapseAux_mem pySpace _ false c hc with h | ⟨hmem, hsp⟩
      · subst h; exact ⟨by decide, by decide⟩
      · exact ⟨hsp, h1 c hmem⟩
    have h3 : NoBadChars (collapseAux (fun c => c == '_') false
        (collapseAux pySpace false (s.map replaceUnsafe))) := by
      intro c hc
      rcases collapseAux_mem _ _ false c hc with h | ⟨hmem, _⟩
      · subst h; exact ⟨by decide, by decide⟩
      · exact h2 c hmem
    have h3c : RunFreeU (collapseAux (fun c => c == '_') false
        (collapseAux pySpace false (s.map replaceUnsafe))) := by
      refine (collapseAux_chain (fun c => c == '_') _ false).imp ?_
      intro a c h hcontra
      exact h (by simp [hcontra.1, hcontra.2])
    have nb4 : NoBadChars (rstripU (lstripU (collapseAux (fun c => c == '_')
        false (collapseAux pySpace false (s.map replaceUnsafe))))) :=
      fun c hc => h3 c (lstripU_mem _ _ (rstripU_mem _ _ hc))
    have rf4 : RunFreeU (rstripU (lstripU (collapseAux (fun c => c == '_')
        false (collapseAux pySpace false (s.map replaceUnsafe))))) :=
      rstripU_chain _ (lstripU_chain _ h3c)
    have hd4 : ∀ h ∈ (rstripU (lstripU (collapseAux (fun c => c == '_')
        false (collapseAux pySpace false (s.map replaceUnsafe))))).head?,
        h ≠ '_' := by
      intro h hh
      exact lstripU_head _ h (rstripU_head _ h hh)
    have lt4 : ∀ h ∈ (rstripU (lstripU (collapseAux (fun c => c == '_')
        false (collapseAux pySpace false (s.map replaceUnsafe))))).getLast?,
        h ≠ '_' := rstripU_getLast _
    by_cases hlen : 150 < (rstripU (lstripU (collapseAux (fun c => c == '_')
        false (collapseAux pySpace false (s.map replaceUnsafe))))).length
    · rw [if_pos hlen]
      refine ⟨?_, ?_, ?_, ?_, ?_⟩
      · intro c hc
        exact nb4 c ((List.take_sublist _ _).mem (rstripU_mem _ _ hc))
      · exact rstripU_chain _ (rf4.take 150)
      · intro h hh
        have h1t := rstripU_head _ h hh
        rw [head?_take_pos 150 (by omega) _] at h1t
        exact hd4 h h1t
      · exact rstripU_getLast _
      · calc (rstripU ((rstripU (lstripU (collapseAux (fun c => c == '_')
              false (collapseAux pySpace false
                (s.map replaceUnsafe))))).take 150)).length
            ≤ ((rstripU (lstripU (collapseAux (fun c => c == '_') false
              (collapseAux pySpace false (s.map replaceUnsafe))))).take
                150).length := rstripU_length _
          _ ≤ 150 := List.length_take_le _ _
    · rw [if_neg hlen]
      exact ⟨nb4, rf4, hd4, lt4, by omega⟩

/-- `sanitize_filename` is the identity on inputs already in normal form. -/
theorem sanitize_self : ∀ l : List Char, SaneName l → sanitize_filename l = l := by
  intro l hl
  obtain ⟨nb, rf, hhd, hgl, hlen⟩ := hl
  unfold sanitize_filename
  by_cases h0 : l = []
  · rw [if_pos h0, h0]
  · rw [if_neg h0]
    show (if 150 <
        (rstripU (lstripU (collapseAux (fun c => c == '_') false
          (collapseAux pySpace false (l.map replaceUnsafe))))).length then
      rstripU ((rstripU (lstripU (collapseAux (fun c => c == '_') false
        (collapseAux pySpace false (l.map replaceUnsafe))))).take 150)
      else rstripU (lstripU (collapseAux (fun c => c == '_') false
        (collapseAux pySpace false (l.map replaceUnsafe))))) = l
    have e1 : l.map replaceUnsafe = l := by
      apply map_self_of
      intro c hc
      unfold replaceUnsafe
      rw [if_neg]
      simp [(nb c hc).2]
    have e2 : collapseAux pySpace false l = l :=
      collapseAux_self pySpace l false (fun c hc => (nb c hc).1)
    have e3 : collapseAux (fun c => c == '_') false l = l :=
      collapseAux_id_of_chain l false rf (fun hcontra => nomatch hcontra)
    have e4 : lstripU l = l := lstripU_id l hhd
    have e5 : rstripU l = l := rstripU_id l hgl
    rw [e1, e2, e3, e4, e5, if_neg (by omega)]

/-- C10 (confirmed): `sanitize_filename` is idempotent, and its output
never begins or ends with an underscore. -/
theorem sanitize_filename_idempotent :
    ∀ s : List Char,
      sanitize_filename (sanitize_filename s) = sanitize_filename s ∧
      (∀ h ∈ (sanitize_filename s).head?, h ≠ '_') ∧
      (∀ h ∈ (sanitize_filename s).getLast?, h ≠ '_') := by
  intro s
  have hS := sanitize_saneName s
  exact ⟨sanitize_self _ hS, hS.2.2.1, hS.2.2.2.1⟩

/-- Witness for C10 at a concrete input. -/
theorem sanitize_filename_idempotent_witness :
    sanitize_filename (sanitize_filename ['a', ' ', ' ', 'b', '_']) =
      sanitize_filename ['a', ' ', ' ', 'b', '_'] :=
  (sanitize_filename_idempotent ['a', ' ', ' ', 'b', '_']).1

theorem runfree_of_no_underscore :
    ∀ l : List Char, (∀ c ∈ l, c ≠ '_') → RunFreeU l := by
  intro l
  induction l with
  | nil => intro _; simp [RunFreeU]
  | cons c cs ih =>
    intro h
    rw [RunFreeU, List.chain'_cons']
    constructor
    · intro x _ hcontra
      exact h c (by simp) hcontra.1
    · exact ih (fun d hd => h d (by simp [hd]))

theorem natCharsAux_digits :
    ∀ (fuel n : Nat), ∀ c ∈ natCharsAux fuel n,
      ∃ d, d < 10 ∧ c = Char.ofNat (48 + d) := by
  intro fuel
  induction fuel with
  | zero => intro n c hc; simp [natCharsAux] at hc
  | succ f ih =>
    intro n c hc
    unfold natCharsAux at hc
    by_cases h : n < 10
    · rw [if_pos h] at hc
      simp only [List.mem_singleton] at hc
      exact ⟨n, h, hc⟩
    · rw [if_neg h] at hc
      rcases List.mem_append.mp hc with h2 | h2
      · exact ih (n / 10) c h2
      · simp only [List.mem_singleton] at h2
        exact ⟨n % 10, Nat.mod_lt _ (by omega), h2⟩

theorem natChars_ne_nil : ∀ n : Nat, natChars n ≠ [] := by
  intro n
  unfold natChars natCharsAux
  by_cases h : n < 10
  · rw [if_pos h]; simp
  · rw [if_neg h]; simp

theorem digit_char_ok : ∀ d : Nat, d < 10 →
    unsafeChar (Char.ofNat (48 + d)) = false ∧
    pySpace (Char.ofNat (48 + d)) = false ∧ Char.ofNat (48 + d) ≠ '_' := by
  intro d hd
  interval_cases d <;> exact ⟨by decide, by decide, by decide⟩

theorem intChars_ok : ∀ y : Int,
    intChars y ≠ [] ∧
    ∀ c ∈ intChars y, unsafeChar c = false ∧ pySpace c = false ∧ c ≠ '_' := by
  intro y
  unfold intChars
  by_cases h : y < 0
  · rw [if_pos h]
    refine ⟨by simp, ?_⟩
    intro c hc
    rcases List.mem_cons.mp hc with h2 | h2
    · subst h2; exact ⟨by decide, by decide, by decide⟩
    · rcases natCharsAux_digits _ _ c h2 with ⟨d, hd, hEq⟩
      subst hEq
      exact digit_char_ok d hd
  · rw [if_neg h]
    refine ⟨natChars_ne_nil _, ?_⟩
    intro c hc
    rcases natCharsAux_digits _ _ c hc with ⟨d, hd, hEq⟩
    subst hEq
    exact digit_char_ok d hd

theorem partOk_sanitize (s : List Char) : PartOk (sanitize_filename s) := by
  obtain ⟨nb, rf, hh, hg, _⟩ := sanitize_saneName s
  exact ⟨fun c hc => ⟨(nb c hc).2, (nb c hc).1⟩, rf, hh, hg⟩

theorem partOk_intChars (y : Int) : PartOk (intChars y) := by
  obtain ⟨hne, hall⟩ := intChars_ok y
  refine ⟨fun c hc => ⟨(hall c hc).1, (hall c hc).2.1⟩,
    runfree_of_no_underscore _ (fun c hc => (hall c hc).2.2), ?_, ?_⟩
  · intro h hh
    exact (hall h (List.mem_of_mem_head? hh)).2.2
  · intro h hh
    exact (hall h (List.mem_of_mem_getLast? hh)).2.2

theorem runfree_glue (xs ys : List Char) (hx : RunFreeU xs)
    (hlast : ∀ h ∈ xs.getLast?, h ≠ '_') (hy : RunFreeU ys)
    (hhead : ∀ h ∈ ys.head?, h ≠ '_') :
    RunFreeU (xs ++ '_' :: ys) := by
  rw [RunFreeU, List.chain'_append]
  refine ⟨hx, ?_, ?_⟩
  · rw [List.chain'_cons']
    exact ⟨fun h hh hcontra => hhead h hh hcontra.2, hy⟩
  · intro x hx2 y hy2
    simp only [List.head?_cons, Option.mem_def, Option.some.injEq] at hy2
    subst hy2
    intro hcontra
    exact hlast x hx2 hcontra.1

theorem seg2_ok (p q : List Char) (hp : PartOk p) (hq : PartOk q) :
    structuredNameOk (p ++ '_' :: q) := by
  constructor
  · intro c hc
    rcases List.mem_append.mp hc with h | h
    · exact hp.1 c h
    · rcases List.mem_cons.mp h with h2 | h2
      · subst h2; exact ⟨by decide, by decide⟩
      · exact hq.1 c h2
  · exact runfree_glue p q hp.2.1 hp.2.2.2 hq.2.1 hq.2.2.1

theorem head_of_glue_ne (q r : List Char) (hq : PartOk q) (hqne : q ≠ []) :
    ∀ h ∈ (q ++ '_' :: r).head?, h ≠ '_' := by
  intro h hh
  cases q with
  | nil => exact absurd rfl hqne
  | cons c cs =>
    simp only [List.cons_append, List.head?_cons, Option.mem_def,
      Option.some.injEq] at hh
    rw [← hh]
    exact hq.2.2.1 c (by simp)

theorem seg3_ok (p q r : List Char) (hp : PartOk p) (hq : PartOk q)
    (hqne : q ≠ []) (hr : PartOk r) :
    structuredNameOk (p ++ '_' :: (q ++ '_' :: r)) := by
  have hinner := seg2_ok q r hq hr
  constructor
  · intro c hc
    rcases List.mem_append.mp hc with h | h
    · exact hp.1 c h
    · rcases List.mem_cons.mp h with h2 | h2
      · subst h2; exact ⟨by decide, by decide⟩
      · exact hinner.1 c h2
  · exact runfree_glue p _ hp.2.1 hp.2.2.2 hinner.2 (head_of_glue_ne q r hq hqne)

theorem slotAuthor_cases (fa : Option (List Char)) :
    slotAuthor fa = [] ∨ ∃ s0, slotAuthor fa = [sanitize_filename s0] := by
  rcases fa with _ | a
  · exact Or.inl rfl
  · simp only [slotAuthor]
    by_cases h : a ≠ []
    · rw [if_pos h]
      by_cases h2 : lastNameOf a ≠ []
      · rw [if_pos h2]
        exact Or.inr ⟨lastNameOf a, rfl⟩
      · rw [if_neg h2]
        exact Or.inl rfl
    · rw [if_neg h]
      exact Or.inl rfl

theorem slotYear_cases (y : Option Int) :
    slotYear y = [] ∨ ∃ yy, slotYear y = [intChars yy] := by
  rcases y with _ | yy
  · exact Or.inl rfl
  · simp only [slotYear]
    by_cases h : yy ≠ 0
    · rw [if_pos h]
      exact Or.inr ⟨yy, rfl⟩
    · rw [if_neg h]
      exact Or.inl rfl

theorem slotTitle_cases (t : Option (List Char)) :
    slotTitle t = [] ∨ ∃ s0, slotTitle t = [sanitize_filename s0] := by
  rcases t with _ | tt
  · exact Or.inl rfl
  · simp only [slotTitle]
    by_cases h : tt ≠ []
    · rw [if_pos h]
      exact Or.inr ⟨tt, rfl⟩
    · rw [if_neg h]
      exact Or.inl rfl

theorem singleton_ok (p : List Char) (hp : PartOk p) : structuredNameOk p :=
  ⟨hp.1, hp.2.1⟩

theorem ext_pdf_ok (name : List Char) (h : structuredNameOk name) :
    structuredNameOk (name ++ ['.', 'p', 'd', 'f']) := by
  constructor
  · intro c hc
    rcases List.mem_append.mp hc with h2 | h2
    · exact h.1 c h2
    · simp only [List.mem_cons, List.not_mem_nil, or_false] at h2
      rcases h2 with rfl | rfl | rfl | rfl
      · exact ⟨by decide, by decide⟩
      · exact ⟨by decide, by decide⟩
      · exact ⟨by decide, by decide⟩
      · exact ⟨by decide, by decide⟩
  · rw [structuredNameOk] at h
    rw [RunFreeU, List.chain'_append]
    refine ⟨h.2, ?_, ?_⟩
    · rw [List.chain'_cons, List.chain'_cons, List.chain'_cons]
      refine ⟨by decide, by decide, by decide, List.chain'_singleton _⟩
    intro x _ y hy
    simp only [List.head?_cons, Option.mem_def, Option.some.injEq] at hy
    subst hy
    intro hcontra
    exact absurd hcontra.2 (by decide)

theorem joinUnderscore_one (p : List Char) : joinUnderscore [p] = p := rfl

theorem joinUnderscore_two (p q : List Char) :
    joinUnderscore [p, q] = p ++ '_' :: q := rfl

theorem joinUnderscore_three (p q r : List Char) :
    joinUnderscore [p, q, r] = p ++ '_' :: (q ++ '_' :: r) := rfl

theorem structured_filename_sanitized :
    (∀ (first_author : Option (List Char)) (year : Option Int)
      (title : Option (List Char)) (fallback : List Char),
      archiveParts first_author year title ≠ [] →
      structuredNameOk
        (build_structured_archive_filename first_author year title fallback)) ∧
    (∀ s : List Char, (sanitize_filename s).length ≤ 150) := by
  constructor
  · intro fa y t fb hne
    unfold build_structured_archive_filename
    rw [if_pos hne]
    apply ext_pdf_ok
    unfold archiveParts at hne ⊢
    rcases slotAuthor_cases fa with hA | ⟨sA, hA⟩ <;>
      rcases slotYear_cases y with hY | ⟨yy, hY⟩ <;>
        rcases slotTitle_cases t with hT | ⟨sT, hT⟩ <;>
          rw [hA, hY, hT] at hne ⊢ <;>
            simp only [List.cons_append, List.nil_append, List.append_nil]
              at hne ⊢
    · exact absurd rfl hne
    · rw [joinUnderscore_one]
      exact singleton_ok _ (partOk_sanitize sT)
    · rw [joinUnderscore_one]
      exact singleton_ok _ (partOk_intChars yy)
    · rw [joinUnderscore_two]
      exact seg2_ok _ _ (partOk_intChars yy) (partOk_sanitize sT)
    · rw [joinUnderscore_one]
      exact singleton_ok _ (partOk_sanitize sA)
    · rw [joinUnderscore_two]
      exact seg2_ok _ _ (partOk_sanitize sA) (partOk_sanitize sT)
    · rw [joinUnderscore_two]
      exact seg2_ok _ _ (partOk_sanitize sA) (partOk_intChars yy)
    · rw [joinUnderscore_three]
      exact seg3_ok _ _ _ (partOk_sanitize sA) (partOk_intChars yy)
        (intChars_ok yy).1 (partOk_sanitize sT)
  · intro s
    exact (sanitize_saneName s).2.2.2.2

set_option maxRecDepth 4000 in
theorem archive_filename_bound_cex :
    ¬ filenameClaimC9 (build_structured_archive_filename none (some 2023)
      (some longTitle) ['x', '.', 'p', 'd', 'f']) := by
  intro h
  have hlen := h.2.2.2
  have h155 : (stemOf (build_structured_archive_filename none (some 2023)
      (some longTitle) ['x', '.', 'p', 'd', 'f'])).length = 155 := by decide
  omega

theorem structured_filename_sanitized_witness :
    archiveParts none (some 2023) (some ['t']) ≠ [] ∧
    structuredNameOk (build_structured_archive_filename none (some 2023)
      (some ['t']) ['x', '.', 'p', 'd', 'f']) ∧
    (sanitize_filename longTitle).length ≤ 150 :=
  ⟨by decide,
   structured_filename_sanitized.1 none (some 2023) (some ['t'])
     ['x', '.', 'p', 'd', 'f'] (by decide),
   structured_filename_sanitized.2 longTitle⟩
